import Mathlib

/-!
Verification of the usage-detection engine of `app/main.py`
(S4HANA Credit Management Object Remediator).

The Python source scans a text block with seven compiled regular
expressions (`TABLE_RE`, `TXN_RE`, `PROG_RE`, `CLASS_RE`, `CLEAR_RE`,
`ASSIGN_RE`, `GENERIC_RE`), deduplicates the matches by exact span,
sorts them by start offset with a stable sort, and maps each match to a
finding record carrying the matched object, a suggested remediation and
an ambiguity flag.

This file gives a shallow embedding of that code.  The regular
expressions are embedded as terms of a small regex AST (`RE`) together
with a CPS backtracking matcher (`runRE`) that reproduces the Python
`re` semantics for exactly the constructs these seven patterns use:
ordered alternation (leftmost-first), lazy and greedy star over a
single-character class, greedy plus, greedy option, case-insensitive
literals, word boundaries, and named groups.  `finditer` is embedded by
`scanAux`: scan left to right, emit the first match found, continue at
its end.  Text is modelled as `List Char`; the model is faithful for
ASCII text (Python `\w`, `\s` and `IGNORECASE` additionally cover
non-ASCII Unicode, which no claim here depends on).
-/

set_option linter.unusedVariables false

namespace App

/-! ### Character classes (Python `\w`, `\s`, `[\w\-]`, `[\w\-\>]`, `['"]`, `[\s\S]`) -/

def isWordCh (c : Char) : Bool := c.isAlpha || c.isDigit || c = '_'

def isSpaceCh (c : Char) : Bool :=
  c = ' ' || c = '\t' || c = '\n' || c = '\r' || c = Char.ofNat 11 || c = Char.ofNat 12

def isWordDash (c : Char) : Bool := isWordCh c || c = '-'

def isWordDashGt (c : Char) : Bool := isWordCh c || c = '-' || c = '>'

def isQuoteCh (c : Char) : Bool := c = Char.ofNat 39 || c = '"'

def anyCh (c : Char) : Bool := true

/-! ### Identifier catalog (module-level constants of `app/main.py`) -/

/-- `REPLACEMENTS` of `app/main.py`: obsolete object name (uppercase) to
remediation text, in source order. -/
def REPLACEMENTS : List (List Char × List Char) :=
  [("S066".toList, "Replace S066 table with relevant fields of UKM_ITEM (per SAP Note 2706489)".toList),
   ("S067".toList, "Replace S067 table with relevant fields of UKM_ITEM (per SAP Note 2706489)".toList),
   ("SD_VKMLOG_SHOW".toList, "This is obsolete".toList),
   ("VAKCR_REBUILD".toList, "This is obsolete".toList),
   ("RVKRED03".toList, "This is obsolete".toList),
   ("RVKRED04".toList, "This is obsolete".toList),
   ("RVKRED05".toList, "This is obsolete".toList),
   ("VKMI".toList, "This is obsolete".toList),
   ("VAKCR".toList, "This is obsolete".toList),
   ("VKM2".toList, "Replace with UKM_CASE (OSS Note 2270544)".toList),
   ("VKM3".toList, "Replace with UKM_CASE (OSS Note 2270544)".toList),
   ("VKM5".toList, "Replace with UKM_CASE (OSS Note 2270544)".toList),
   ("CL_CRED_VAL_LOG".toList, "This is obsolete".toList)]

/-- `REPLACEMENTS.get(key)` of Python: first (unique) entry with this key. -/
def lookupRepl (key : List Char) : Option (List Char) :=
  (REPLACEMENTS.find? (fun p => decide (p.1 = key))).map (fun p => p.2)

def TABLES : List (List Char) := ["S066".toList, "S067".toList, "VKMI".toList, "VAKCR".toList]

def TRANSACTIONS : List (List Char) := ["VKM2".toList, "VKM3".toList, "VKM5".toList]

def PROGRAMS : List (List Char) :=
  ["SD_VKMLOG_SHOW".toList, "VAKCR_REBUILD".toList, "RVKRED03".toList,
   "RVKRED04".toList, "RVKRED05".toList]

def CLASSES : List (List Char) := ["CL_CRED_VAL_LOG".toList]

/-- All names of the identifier catalog (the keys of `REPLACEMENTS`,
partitioned into the four category lists). -/
def allNames : List (List Char) := TABLES ++ TRANSACTIONS ++ PROGRAMS ++ CLASSES

/-! ### Regex AST

One constructor per construct occurring in the seven source patterns.
The `obj` capture group is, in every source pattern, an alternation of
plain catalog-name literals; it is embedded as the dedicated constructor
`objLits` which records the matched text (original casing).  The `stmt`
capture group is embedded by `grpStmt`. -/

inductive RE where
  | epsR : RE
  | chP (p : Char → Bool) : RE
  | litCI (s : List Char) : RE
  | seqR (a b : RE) : RE
  | altR (a b : RE) : RE
  | starLz (p : Char → Bool) : RE
  | starGr (p : Char → Bool) : RE
  | plusGr (p : Char → Bool) : RE
  | optGr (a : RE) : RE
  | wb : RE
  | grpStmt (a : RE) : RE
  | objLits (ls : List (List Char)) : RE

/-- Captured groups of one match attempt: the texts of the named groups
`stmt` and `obj` (`none` = group did not participate). -/
structure Caps where
  stmt : Option (List Char)
  obj : Option (List Char)
deriving DecidableEq, Repr

def capsInit : Caps := { stmt := none, obj := none }

/-- Result handed to the top continuation: remaining input, previous
character, absolute position, captures. -/
abbrev MRes := List Char × Option Char × Nat × Caps

/-- Continuation type: remaining input, previous char (for `\b`),
absolute position, captures so far. -/
abbrev K := List Char → Option Char → Nat → Caps → Option MRes

/-- First-success choice on `Option` (Python's ordered backtracking). -/
def oor (a b : Option MRes) : Option MRes :=
  match a with
  | some x => some x
  | none => b

/-- Greedy star over a one-character class: consume as much as possible,
backtrack one character at a time. -/
def starGrun (p : Char → Bool) (k : List Char → Option Char → Nat → Option MRes) :
    List Char → Option Char → Nat → Option MRes
  | [], prev, i => k [] prev i
  | c :: rest, prev, i =>
    if p c then oor (starGrun p k rest (some c) (i + 1)) (k (c :: rest) prev i)
    else k (c :: rest) prev i

/-- Lazy star over a one-character class: try the continuation first,
consume one more character on failure. -/
def starLrun (p : Char → Bool) (k : List Char → Option Char → Nat → Option MRes) :
    List Char → Option Char → Nat → Option MRes
  | [], prev, i => k [] prev i
  | c :: rest, prev, i =>
    oor (k (c :: rest) prev i)
      (if p c then starLrun p k rest (some c) (i + 1) else none)

/-- Case-insensitive literal; passes the actually matched characters
(original casing) to its continuation. -/
def litCap (s : List Char) (k2 : List Char → List Char → Option Char → Nat → Option MRes) :
    List Char → Option Char → Nat → Option MRes
  | rest, prev, i =>
    match s with
    | [] => k2 [] rest prev i
    | ch :: s1 =>
      match rest with
      | [] => none
      | r :: rest1 =>
        if r.toUpper = ch.toUpper then
          litCap s1 (fun cs r2 p2 j => k2 (r :: cs) r2 p2 j) rest1 (some r) (i + 1)
        else none

/-- Ordered alternation of catalog-name literals (the `obj` group):
first literal that matches wins; the matched text is recorded in the
`obj` capture slot. -/
def objAlt (k : K) (c : Caps) : List (List Char) → List Char → Option Char → Nat → Option MRes
  | [], rest, prev, i => none
  | l :: ls, rest, prev, i =>
    oor (litCap l (fun cs rest1 prev1 j => k rest1 prev1 j { c with obj := some cs }) rest prev i)
      (objAlt k c ls rest prev i)

/-- Python `\b`: a word character on exactly one side of the position. -/
def wordBoundary (prev : Option Char) (rest : List Char) : Bool :=
  (match prev with | some c => isWordCh c | none => false) ≠
    (match rest with | c :: _ => isWordCh c | [] => false)

/-- CPS backtracking matcher.  `runRE re k rest prev i c` attempts `re`
at the head of `rest` (character `i` of the text, preceded by `prev`)
with captures `c`, handing every way of matching, in Python `re`
preference order, to the continuation `k`; the first overall success
wins. -/
def runRE : RE → K → K
  | RE.epsR, k => k
  | RE.chP p, k => fun rest prev i c =>
    match rest with
    | [] => none
    | ch :: rest1 => if p ch then k rest1 (some ch) (i + 1) c else none
  | RE.litCI s, k => fun rest prev i c =>
    litCap s (fun cs rest1 prev1 j => k rest1 prev1 j c) rest prev i
  | RE.seqR a b, k => runRE a (runRE b k)
  | RE.altR a b, k => fun rest prev i c =>
    oor (runRE a k rest prev i c) (runRE b k rest prev i c)
  | RE.starLz p, k => fun rest prev i c =>
    starLrun p (fun rest1 prev1 j => k rest1 prev1 j c) rest prev i
  | RE.starGr p, k => fun rest prev i c =>
    starGrun p (fun rest1 prev1 j => k rest1 prev1 j c) rest prev i
  | RE.plusGr p, k => fun rest prev i c =>
    match rest with
    | [] => none
    | ch :: rest1 =>
      if p ch then starGrun p (fun rest2 prev2 j => k rest2 prev2 j c) rest1 (some ch) (i + 1)
      else none
  | RE.optGr a, k => fun rest prev i c =>
    oor (runRE a k rest prev i c) (k rest prev i c)
  | RE.wb, k => fun rest prev i c =>
    if wordBoundary prev rest then k rest prev i c else none
  | RE.grpStmt a, k => fun rest prev i c =>
    runRE a
      (fun rest1 prev1 j c1 =>
        k rest1 prev1 j { c1 with stmt := some (rest.take (rest.length - rest1.length)) })
      rest prev i c
  | RE.objLits ls, k => fun rest prev i c => objAlt k c ls rest prev i

/-- Sequencing of a list of regexes (purely a notation for building the
seven patterns; `foldr` keeps the source's left-to-right reading). -/
def rcat (l : List RE) : RE := l.foldr RE.seqR RE.epsR

/-- Ordered alternation of a nonempty list of regexes. -/
def ralt (a : RE) : List RE → RE
  | [] => a
  | b :: rest => RE.altR a (ralt b rest)

/-- `\bKEYWORD\b` (case-insensitive). -/
def kwB (s : String) : RE := rcat [RE.wb, RE.litCI s.toList, RE.wb]

/-! ### The seven source patterns -/

/-- `TABLE_RE` of `app/main.py`:
`(?P<full>(?P<stmt>\bSELECT\b|\bINSERT\b|\bUPDATE\b|\bDELETE\b|\bMODIFY\b)`
`[\s\S]*?\b(FROM|INTO|UPDATE|DELETE\s+FROM)\b\s+(?P<obj>S066|S067|VKMI|VAKCR)\b[\s\S]*?\.)`,
`re.IGNORECASE`.  The `full` group is the whole pattern, so its span is
the match span. -/
def TABLE_RE : RE := rcat
  [RE.grpStmt (ralt (kwB "SELECT") [kwB "INSERT", kwB "UPDATE", kwB "DELETE", kwB "MODIFY"]),
   RE.starLz anyCh,
   RE.wb,
   ralt (RE.litCI "FROM".toList)
     [RE.litCI "INTO".toList, RE.litCI "UPDATE".toList,
      rcat [RE.litCI "DELETE".toList, RE.plusGr isSpaceCh, RE.litCI "FROM".toList]],
   RE.wb,
   RE.plusGr isSpaceCh,
   RE.objLits TABLES,
   RE.wb,
   RE.starLz anyCh,
   RE.litCI ".".toList]

/-- `TXN_RE` of `app/main.py`:
`(?P<full>(?P<stmt>\bCALL\s+TRANSACTION\b)\s+['"]?(?P<obj>VKM2|VKM3|VKM5)['"]?\s*\.)`. -/
def TXN_RE : RE := rcat
  [RE.grpStmt (rcat [RE.wb, RE.litCI "CALL".toList, RE.plusGr isSpaceCh,
     RE.litCI "TRANSACTION".toList, RE.wb]),
   RE.plusGr isSpaceCh,
   RE.optGr (RE.chP isQuoteCh),
   RE.objLits TRANSACTIONS,
   RE.optGr (RE.chP isQuoteCh),
   RE.starGr isSpaceCh,
   RE.litCI ".".toList]

/-- `PROG_RE` of `app/main.py`:
`(?P<full>(?P<stmt>\bSUBMIT\b)\s+(?P<obj>SD_VKMLOG_SHOW|...|RVKRED05)\b[\s\S]*?\.)`. -/
def PROG_RE : RE := rcat
  [RE.grpStmt (kwB "SUBMIT"),
   RE.plusGr isSpaceCh,
   RE.objLits PROGRAMS,
   RE.wb,
   RE.starLz anyCh,
   RE.litCI ".".toList]

/-- `CLASS_RE` of `app/main.py`:
`(?P<full>(?P<stmt>\bCREATE\s+OBJECT\b|\bNEW\b|\bTYPE\s+REF\s+TO\b)`
`[\s\S]*?\b(?P<obj>CL_CRED_VAL_LOG)\b[\s\S]*?\.)`. -/
def CLASS_RE : RE := rcat
  [RE.grpStmt (ralt
     (rcat [RE.wb, RE.litCI "CREATE".toList, RE.plusGr isSpaceCh, RE.litCI "OBJECT".toList, RE.wb])
     [kwB "NEW",
      rcat [RE.wb, RE.litCI "TYPE".toList, RE.plusGr isSpaceCh, RE.litCI "REF".toList,
        RE.plusGr isSpaceCh, RE.litCI "TO".toList, RE.wb]]),
   RE.starLz anyCh,
   RE.wb,
   RE.objLits CLASSES,
   RE.wb,
   RE.starLz anyCh,
   RE.litCI ".".toList]

/-- `CLEAR_RE` of `app/main.py`:
`(?P<full>(?P<stmt>\bCLEAR\b)[\s\S]*?\b(?P<obj>S066|S067|VKMI|VAKCR)[\w\-]*\s*\.)`. -/
def CLEAR_RE : RE := rcat
  [RE.grpStmt (kwB "CLEAR"),
   RE.starLz anyCh,
   RE.wb,
   RE.objLits TABLES,
   RE.starGr isWordDash,
   RE.starGr isSpaceCh,
   RE.litCI ".".toList]

/-- `ASSIGN_RE` of `app/main.py`:
`(?P<full>((?P<obj>S066|S067|VKMI|VAKCR)[\w\-]*\s*=\s*[\w\-\>]+`
`|[\w\-\>]+\s*=\s*(?P<obj2>S066|S067|VKMI|VAKCR)[\w\-]*)\s*\.)`.
The single `obj` capture slot of the embedding plays the role of the
source's `obj`/`obj2` pair: in either branch it holds the matched table
name, and the Python code reads whichever of the two is set. -/
def ASSIGN_RE : RE := rcat
  [RE.altR
     (rcat [RE.objLits TABLES, RE.starGr isWordDash, RE.starGr isSpaceCh,
       RE.litCI "=".toList, RE.starGr isSpaceCh, RE.plusGr isWordDashGt])
     (rcat [RE.plusGr isWordDashGt, RE.starGr isSpaceCh, RE.litCI "=".toList,
       RE.starGr isSpaceCh, RE.objLits TABLES, RE.starGr isWordDash]),
   RE.starGr isSpaceCh,
   RE.litCI ".".toList]

/-- `GENERIC_RE` of `app/main.py` (catch-all fallback):
`(?P<full>(?P<obj>S066|S067|VKMI|VAKCR)[\-\w]*)` — note: no leading
word boundary. -/
def GENERIC_RE : RE := rcat [RE.objLits TABLES, RE.starGr isWordDash]

/-- `FINDERS` of `app/main.py`: fixed evaluation order, statement-shaped
matchers before the lenient/fallback ones. -/
def FINDERS : List RE :=
  [TABLE_RE, TXN_RE, PROG_RE, CLASS_RE, CLEAR_RE, ASSIGN_RE, GENERIC_RE]

/-! ### `finditer` and the match dictionaries -/

/-- The match dictionary built in the loop body of
`find_obsolete_usage` (keys `full`, `stmt`, `object`,
`suggested_statement`, `span`, `snippet`). -/
structure RawMatch where
  full : List Char
  stmt : List Char
  object : Option (List Char)
  suggested_statement : Option (List Char)
  span : Nat × Nat
  snippet : List Char
deriving DecidableEq, Repr

/-- Python `str.strip()`: drop leading and trailing whitespace. -/
def stripWs (l : List Char) : List Char :=
  ((l.dropWhile isSpaceCh).reverse.dropWhile isSpaceCh).reverse

/-- Top continuation: accept, returning the final state. -/
def topK : K := fun rest prev i c => some (rest, prev, i, c)

/-- One match dictionary from a successful match with span
`(istart, iend)`, matched text `fullChars` and captures `c`:
`{"full": ..., "stmt": stmt or "=", "object": obj,`
`"suggested_statement": REPLACEMENTS.get(obj.upper()) if obj else None,`
`"span": ..., "snippet": full.strip()}`. -/
def mkMatch (istart iend : Nat) (fullChars : List Char) (c : Caps) : RawMatch :=
  { full := fullChars
    stmt :=
      match c.stmt with
      | some s => if s = [] then ['='] else s
      | none => ['=']
    object := c.obj
    suggested_statement :=
      match c.obj with
      | some o => if o = [] then none else lookupRepl (o.map Char.toUpper)
      | none => none
    span := (istart, iend)
    snippet := stripWs fullChars }

/-- `pat.finditer(txt)`: scan left to right from position `i` (characters
`rest`, preceded by `prev`), emit the leftmost match, continue at its
end (after an empty match, at the next position).  Fuel-driven so that
the definition computes by kernel reduction; `finditer` supplies fuel
`txt.length + 1`, which covers every step since each iteration advances
the position. -/
def scanBody (re : RE) (next : List Char → Option Char → Nat → List RawMatch)
    (rest : List Char) (prev : Option Char) (i : Nat) : List RawMatch :=
  match runRE re topK rest prev i capsInit with
  | some (rest1, prev1, j, c) =>
    if j = i then
      match rest with
      | [] => [mkMatch i j (rest.take (j - i)) c]
      | ch :: rtl => mkMatch i j (rest.take (j - i)) c :: next rtl (some ch) (i + 1)
    else
      mkMatch i j (rest.take (j - i)) c :: next rest1 prev1 j
  | none =>
    match rest with
    | [] => []
    | ch :: rtl => next rtl (some ch) (i + 1)

def scanAux (re : RE) : Nat → List Char → Option Char → Nat → List RawMatch
  | 0, rest, prev, i => []
  | Nat.succ fuel, rest, prev, i => scanBody re (scanAux re fuel) rest prev i

def finditer (re : RE) (txt : List Char) : List RawMatch :=
  scanAux re (txt.length + 1) txt none 0

/-- All raw matches of one text, in matcher evaluation order
(`for pat in FINDERS: for m in pat.finditer(txt)`). -/
def rawAll (txt : List Char) : List RawMatch :=
  FINDERS.foldr (fun re acc => finditer re txt ++ acc) []

/-- The `seen`-set filter of `find_obsolete_usage`: skip a match whose
exact `(start, end)` span was already emitted, keep the first
occurrence. -/
def dedupeBySpan : List (Nat × Nat) → List RawMatch → List RawMatch
  | seen, [] => []
  | seen, m :: ms =>
    if m.span ∈ seen then dedupeBySpan seen ms
    else m :: dedupeBySpan (m.span :: seen) ms

/-- Stable insertion into a list sorted by start offset: the new,
originally-earlier element goes before any element with an equal or
larger key. -/
def insertByStart (m : RawMatch) : List RawMatch → List RawMatch
  | [] => [m]
  | x :: xs => if m.span.1 ≤ x.span.1 then m :: x :: xs else x :: insertByStart m xs

/-- `matches.sort(key=lambda x: x["span"][0])` — Python's `list.sort` is
stable; stable insertion sort computes the same list. -/
def sortByStart : List RawMatch → List RawMatch
  | [] => []
  | m :: ms => insertByStart m (sortByStart ms)

/-- `find_obsolete_usage` of `app/main.py`: run every finder, drop
exact-span duplicates (first encountered wins), sort by start offset. -/
def find_obsolete_usage (txt : String) : List RawMatch :=
  sortByStart (dedupeBySpan [] (rawAll txt.toList))

/-! ### Findings and the endpoint -/

/-- One entry of the `mb_txn_usage` metadata list built in
`remediate_credit_objects`. -/
structure Finding where
  table : Option String
  target_type : Option String
  target_name : Option (List Char)
  start_char_in_unit : Nat
  end_char_in_unit : Nat
  used_fields : List String
  ambiguous : Bool
  suggested_statement : Option (List Char)
  suggested_fields : Option String
  snippet : List Char
deriving DecidableEq, Repr

/-- The metadata record built from one match `m` in the endpoint loop:
`"target_type": "TABLE" if m["object"] in TABLES else None` (an exact,
case-sensitive membership test on the matched text),
`"ambiguous": m["suggested_statement"] is None`, etc. -/
def toFinding (m : RawMatch) : Finding :=
  { table := none
    target_type :=
      match m.object with
      | some o => if o ∈ TABLES then some "TABLE" else none
      | none => none
    target_name := m.object
    start_char_in_unit := m.span.1
    end_char_in_unit := m.span.2
    used_fields := []
    ambiguous := m.suggested_statement.isNone
    suggested_statement := m.suggested_statement
    suggested_fields := none
    snippet := m.snippet }

/-- The finding list the endpoint attaches to one text block
(the spec's `detect`). -/
def detect (txt : String) : List Finding :=
  (find_obsolete_usage txt).map toFinding

/-- The pydantic `Unit` model: the input record schema of the endpoint. -/
structure Unit where
  pgm_name : String
  inc_name : String
  type : String
  name : Option String
  class_implementation : Option String
  start_line : Option Int
  end_line : Option Int
  code : Option String
deriving DecidableEq, Repr

/-- One output record of the endpoint: the JSON round-trip
`json.loads(u.model_dump_json())` reproduces all `Unit` fields
unchanged, and `obj["mb_txn_usage"] = metadata` adds the finding
list. -/
structure UnitResult where
  unit : Unit
  mb_txn_usage : List Finding
deriving DecidableEq, Repr

/-- `remediate_credit_objects` of `app/main.py`: one output record per
input record, in order, with `src = u.code or ""`. -/
def remediate_credit_objects (units : List Unit) : List UnitResult :=
  units.map (fun u => { unit := u, mb_txn_usage := detect (u.code.getD "") })

/-! ### Auxiliary predicates for the proofs -/

/-- The catalog entry looked up for a finding: the remediation stored
under the uppercased `targetName`. -/
def catalogRemediation (f : Finding) : Option (List Char) :=
  match f.target_name with
  | some o => lookupRepl (o.map Char.toUpper)
  | none => none

/-- `Sfx r t`: `r` is a suffix of `t`. -/
def Sfx (r t : List Char) : Prop := ∃ l, t = l ++ r

/-- `Occ n t`: `n` occurs as a contiguous block inside `t`. -/
def Occ (n t : List Char) : Prop := ∃ l r, t = l ++ (n ++ r)

/-- `leadEq n t`: `n` is a leading block of `t` (exact characters). -/
def leadEq : List Char → List Char → Bool
  | [], _ => true
  | _ :: _, [] => false
  | a :: n, b :: t => decide (a = b) && leadEq n t

/-- Executable contiguous-substring test (exact characters). -/
def hasBlock (n : List Char) : List Char → Bool
  | [] => leadEq n []
  | c :: ts => leadEq n (c :: ts) || hasBlock n ts

theorem sfx_refl (t : List Char) : Sfx t t := ⟨[], rfl⟩

theorem sfx_trans {a b c : List Char} (h1 : Sfx a b) (h2 : Sfx b c) : Sfx a c := by
  obtain ⟨l1, rfl⟩ := h1
  obtain ⟨l2, rfl⟩ := h2
  exact ⟨l2 ++ l1, (List.append_assoc l2 l1 a).symm⟩

theorem sfx_cons {r : List Char} {c : Char} {cs : List Char} (h : Sfx r cs) :
    Sfx r (c :: cs) := by
  obtain ⟨l, rfl⟩ := h
  exact ⟨c :: l, rfl⟩

theorem sfx_tail {c : Char} {rtl t : List Char} (h : Sfx (c :: rtl) t) : Sfx rtl t := by
  obtain ⟨l, rfl⟩ := h
  exact ⟨l ++ [c], by simp⟩

theorem occ_of_sfx {n r t : List Char} (h1 : Occ n r) (h2 : Sfx r t) : Occ n t := by
  obtain ⟨l1, r1, rfl⟩ := h1
  obtain ⟨l2, rfl⟩ := h2
  exact ⟨l2 ++ l1, r1, by simp⟩

theorem occ_map (g : Char → Char) {n t : List Char} (h : Occ n t) :
    Occ (n.map g) (t.map g) := by
  obtain ⟨l, r, rfl⟩ := h
  exact ⟨l.map g, r.map g, by simp⟩

theorem leadEq_append (n r : List Char) : leadEq n (n ++ r) = true := by
  induction n with
  | nil => rfl
  | cons a n ih => simp [leadEq, ih]

theorem hasBlock_head (n r : List Char) : hasBlock n (n ++ r) = true := by
  cases n with
  | nil =>
    cases r with
    | nil => rfl
    | cons c ts => simp [hasBlock, leadEq]
  | cons a n1 =>
    have hle : leadEq (a :: n1) (a :: (n1 ++ r)) = true := leadEq_append (a :: n1) r
    simp [hasBlock, hle]

theorem hasBlock_of_occ {n t : List Char} (h : Occ n t) : hasBlock n t = true := by
  obtain ⟨l, r, rfl⟩ := h
  induction l with
  | nil => exact hasBlock_head n r
  | cons x l1 ih => simp [hasBlock, ih]

/-! ### Properties of the stable sort -/

theorem insertByStart_perm (m : RawMatch) (l : List RawMatch) :
    List.Perm (insertByStart m l) (m :: l) := by
  induction l with
  | nil => simp [insertByStart]
  | cons x xs ih =>
    simp only [insertByStart]
    split
    · exact List.Perm.refl _
    · exact (List.Perm.cons x ih).trans (List.Perm.swap m x xs)

theorem sortByStart_perm (l : List RawMatch) : List.Perm (sortByStart l) l := by
  induction l with
  | nil => simp [sortByStart]
  | cons m ms ih =>
    exact (insertByStart_perm m (sortByStart ms)).trans (List.Perm.cons m ih)

theorem mem_sortByStart {m : RawMatch} {l : List RawMatch} :
    m ∈ sortByStart l ↔ m ∈ l := (sortByStart_perm l).mem_iff

theorem insertByStart_pairwise (m : RawMatch) (l : List RawMatch)
    (h : l.Pairwise (fun a b => a.span.1 ≤ b.span.1)) :
    (insertByStart m l).Pairwise (fun a b => a.span.1 ≤ b.span.1) := by
  induction l with
  | nil => simp [insertByStart]
  | cons x xs ih =>
    rw [List.pairwise_cons] at h
    simp only [insertByStart]
    split
    · rename_i hle
      rw [List.pairwise_cons]
      refine ⟨?_, List.pairwise_cons.mpr h⟩
      intro b hb
      rcases List.mem_cons.mp hb with rfl | hb
      · exact hle
      · exact hle.trans (h.1 b hb)
    · rename_i hgt
      have hxm : x.span.1 ≤ m.span.1 := Nat.le_of_lt (Nat.lt_of_not_le hgt)
      rw [List.pairwise_cons]
      refine ⟨?_, ih h.2⟩
      intro b hb
      rcases List.mem_cons.mp ((insertByStart_perm m xs).mem_iff.mp hb) with he | h1
      · rw [he]
        exact hxm
      · exact h.1 b h1

theorem sortByStart_pairwise (l : List RawMatch) :
    (sortByStart l).Pairwise (fun a b => a.span.1 ≤ b.span.1) := by
  induction l with
  | nil => simp [sortByStart]
  | cons m ms ih => exact insertByStart_pairwise m (sortByStart ms) ih

theorem filter_insertByStart (s : Nat) (m : RawMatch) (l : List RawMatch) :
    (insertByStart m l).filter (fun r => decide (r.span.1 = s)) =
      (m :: l).filter (fun r => decide (r.span.1 = s)) := by
  induction l with
  | nil => rfl
  | cons x xs ih =>
    simp only [insertByStart]
    split
    · rfl
    · rename_i hgt
      by_cases hx : x.span.1 = s
      · have hm : ¬ m.span.1 = s := by
          intro he
          exact hgt (he ▸ hx ▸ Nat.le_refl _)
        simp [List.filter_cons, hx, hm, ih]
      · simp [List.filter_cons, hx, ih]

theorem sortByStart_stable (s : Nat) (l : List RawMatch) :
    (sortByStart l).filter (fun r => decide (r.span.1 = s)) =
      l.filter (fun r => decide (r.span.1 = s)) := by
  induction l with
  | nil => rfl
  | cons m ms ih =>
    rw [sortByStart, filter_insertByStart s m (sortByStart ms)]
    simp [List.filter_cons, ih]

/-! ### Properties of the span deduplication -/

theorem dedupeBySpan_subset {seen : List (Nat × Nat)} {l : List RawMatch} {m : RawMatch}
    (h : m ∈ dedupeBySpan seen l) : m ∈ l := by
  induction l generalizing seen with
  | nil => simp [dedupeBySpan] at h
  | cons x xs ih =>
    simp only [dedupeBySpan] at h
    split at h
    · exact List.mem_cons_of_mem x (ih h)
    · rcases List.mem_cons.mp h with he | h
      · rw [he]
        exact List.mem_cons_self x xs
      · exact List.mem_cons_of_mem x (ih h)

theorem dedupeBySpan_first {seen : List (Nat × Nat)} {l : List RawMatch} :
    ∀ m ∈ dedupeBySpan seen l,
      m.span ∉ seen ∧ l.find? (fun r => decide (r.span = m.span)) = some m := by
  induction l generalizing seen with
  | nil => intro m hm; simp [dedupeBySpan] at hm
  | cons x xs ih =>
    intro m hm
    simp only [dedupeBySpan] at hm
    by_cases hx : x.span ∈ seen
    · rw [if_pos hx] at hm
      obtain ⟨hns, hfind⟩ := ih m hm
      have hne : ¬ (x.span = m.span) := fun he => hns (he ▸ hx)
      refine ⟨hns, ?_⟩
      rw [List.find?_cons_of_neg _ (by simpa using hne)]
      exact hfind
    · rw [if_neg hx] at hm
      rcases List.mem_cons.mp hm with he | hm
      · cases he
        exact ⟨hx, by rw [List.find?_cons_of_pos _ (by simp)]⟩
      · obtain ⟨hns, hfind⟩ := ih m hm
        have hne : ¬ (x.span = m.span) := by
          intro he
          exact hns (he ▸ List.mem_cons_self x.span seen)
        have hns2 : m.span ∉ seen := fun hin => hns (List.mem_cons_of_mem _ hin)
        refine ⟨hns2, ?_⟩
        rw [List.find?_cons_of_neg _ (by simpa using hne)]
        exact hfind

theorem dedupeBySpan_nodup (seen : List (Nat × Nat)) (l : List RawMatch) :
    ((dedupeBySpan seen l).map RawMatch.span).Nodup := by
  induction l generalizing seen with
  | nil => simp [dedupeBySpan]
  | cons x xs ih =>
    simp only [dedupeBySpan]
    split
    · exact ih seen
    · rename_i hx
      rw [List.map_cons, List.nodup_cons]
      refine ⟨?_, ih (x.span :: seen)⟩
      intro hmem
      obtain ⟨m, hm, hsp⟩ := List.mem_map.mp hmem
      have := (dedupeBySpan_first m hm).1
      exact this (hsp ▸ List.mem_cons_self x.span seen)

theorem dedupeBySpan_complete {l : List RawMatch} (r : RawMatch) (hr : r ∈ l) :
    ∀ seen : List (Nat × Nat),
      r.span ∈ seen ∨ ∃ f ∈ dedupeBySpan seen l, f.span = r.span := by
  induction l with
  | nil => cases hr
  | cons x xs ih =>
    intro seen
    by_cases hx : x.span ∈ seen
    · simp only [dedupeBySpan, if_pos hx]
      rcases List.mem_cons.mp hr with he | hr1
      · rw [he]
        exact Or.inl hx
      · exact ih hr1 seen
    · simp only [dedupeBySpan, if_neg hx]
      rcases List.mem_cons.mp hr with he | hr1
      · rw [he]
        exact Or.inr ⟨x, List.mem_cons_self x _, rfl⟩
      · rcases ih hr1 (x.span :: seen) with hmem | ⟨f, hf, hsp⟩
        · rcases List.mem_cons.mp hmem with he2 | hmem2
          · exact Or.inr ⟨x, List.mem_cons_self x _, he2.symm⟩
          · exact Or.inl hmem2
        · exact Or.inr ⟨f, List.mem_cons_of_mem x hf, hsp⟩

/-! ### Soundness of the matcher

`runRE_sound`: a successful run hands the continuation a suffix of the
input, and any `obj` capture it introduces is (case-insensitively) one
of the catalog names of an `objLits` node and occurs verbatim in the
input.  `MustObj re = true` means every successful path through `re`
passes through an `objLits` node, so the `obj` capture is set. -/

/-- `MustObj re = true`: every match of `re` sets the `obj` capture. -/
def MustObj : RE → Bool
  | RE.seqR a b => MustObj a || MustObj b
  | RE.altR a b => MustObj a && MustObj b
  | RE.grpStmt a => MustObj a
  | RE.objLits ls => true
  | _ => false

/-- `objOK re = true`: every `objLits` node of `re` draws its literals
from the identifier catalog. -/
def objOK : RE → Bool
  | RE.seqR a b => objOK a && objOK b
  | RE.altR a b => objOK a && objOK b
  | RE.grpStmt a => objOK a
  | RE.optGr a => objOK a
  | RE.objLits ls => ls.all (fun l => decide (l ∈ allNames))
  | _ => true

theorem oor_eq_some {a b : Option MRes} {res : MRes} (h : oor a b = some res) :
    a = some res ∨ (a = none ∧ b = some res) := by
  cases a with
  | some x => exact Or.inl h
  | none => exact Or.inr ⟨rfl, h⟩

theorem starGrun_sound (p : Char → Bool)
    (k : List Char → Option Char → Nat → Option MRes) :
    ∀ (rest : List Char) (prev : Option Char) (i : Nat) (res : MRes),
      starGrun p k rest prev i = some res →
      ∃ rest1 prev1 j, k rest1 prev1 j = some res ∧ Sfx rest1 rest := by
  intro rest
  induction rest with
  | nil =>
    intro prev i res h
    exact ⟨[], prev, i, h, sfx_refl []⟩
  | cons c cs ih =>
    intro prev i res h
    simp only [starGrun] at h
    by_cases hp : p c
    · rw [if_pos hp] at h
      rcases oor_eq_some h with h1 | ⟨h0, h2⟩
      · obtain ⟨rest1, prev1, j, hk, hs⟩ := ih (some c) (i + 1) res h1
        exact ⟨rest1, prev1, j, hk, sfx_cons hs⟩
      · exact ⟨c :: cs, prev, i, h2, sfx_refl _⟩
    · rw [if_neg hp] at h
      exact ⟨c :: cs, prev, i, h, sfx_refl _⟩

theorem starLrun_sound (p : Char → Bool)
    (k : List Char → Option Char → Nat → Option MRes) :
    ∀ (rest : List Char) (prev : Option Char) (i : Nat) (res : MRes),
      starLrun p k rest prev i = some res →
      ∃ rest1 prev1 j, k rest1 prev1 j = some res ∧ Sfx rest1 rest := by
  intro rest
  induction rest with
  | nil =>
    intro prev i res h
    exact ⟨[], prev, i, h, sfx_refl []⟩
  | cons c cs ih =>
    intro prev i res h
    simp only [starLrun] at h
    rcases oor_eq_some h with h1 | ⟨h0, h2⟩
    · exact ⟨c :: cs, prev, i, h1, sfx_refl _⟩
    · by_cases hp : p c
      · rw [if_pos hp] at h2
        obtain ⟨rest1, prev1, j, hk, hs⟩ := ih (some c) (i + 1) res h2
        exact ⟨rest1, prev1, j, hk, sfx_cons hs⟩
      · rw [if_neg hp] at h2
        exact absurd h2 (by simp)

theorem litCap_sound :
    ∀ (s : List Char) (k2 : List Char → List Char → Option Char → Nat → Option MRes)
      (rest : List Char) (prev : Option Char) (i : Nat) (res : MRes),
      litCap s k2 rest prev i = some res →
      ∃ cs rest1 prev1 j, k2 cs rest1 prev1 j = some res ∧ rest = cs ++ rest1 ∧
        cs.map Char.toUpper = s.map Char.toUpper := by
  intro s
  induction s with
  | nil =>
    intro k2 rest prev i res h
    exact ⟨[], rest, prev, i, h, rfl, rfl⟩
  | cons ch s1 ih =>
    intro k2 rest prev i res h
    cases rest with
    | nil => simp [litCap] at h
    | cons r rest1 =>
      simp only [litCap] at h
      split at h
      · rename_i he
        obtain ⟨cs, rest2, prev2, j, hk, heq, hup⟩ := ih _ rest1 (some r) (i + 1) res h
        refine ⟨r :: cs, rest2, prev2, j, hk, ?_, ?_⟩
        · rw [List.cons_append, heq]
        · simp [hup, he]
      · simp at h

theorem objAlt_sound (k : K) (c : Caps) :
    ∀ (ls : List (List Char)) (rest : List Char) (prev : Option Char) (i : Nat)
      (res : MRes),
      objAlt k c ls rest prev i = some res →
      ∃ l cs rest1 prev1 j, l ∈ ls ∧
        k rest1 prev1 j { c with obj := some cs } = some res ∧
        rest = cs ++ rest1 ∧ cs.map Char.toUpper = l.map Char.toUpper := by
  intro ls
  induction ls with
  | nil =>
    intro rest prev i res h
    exact absurd h (by simp [objAlt])
  | cons l ls1 ih =>
    intro rest prev i res h
    simp only [objAlt] at h
    rcases oor_eq_some h with h1 | ⟨h0, h2⟩
    · obtain ⟨cs, rest1, prev1, j, hk, heq, hup⟩ := litCap_sound l _ rest prev i res h1
      exact ⟨l, cs, rest1, prev1, j, List.mem_cons_self l ls1, hk, heq, hup⟩
    · obtain ⟨l1, cs, rest1, prev1, j, hmem, hk, heq, hup⟩ := ih rest prev i res h2
      exact ⟨l1, cs, rest1, prev1, j, List.mem_cons_of_mem l hmem, hk, heq, hup⟩

theorem runRE_sound (re : RE) :
    ∀ (k : K) (rest : List Char) (prev : Option Char) (i : Nat) (c : Caps)
      (res : MRes), objOK re = true →
      runRE re k rest prev i c = some res →
      ∃ rest1 prev1 j c1,
        k rest1 prev1 j c1 = some res ∧ Sfx rest1 rest ∧
        (c1.obj = c.obj ∨ ∃ cs nm, c1.obj = some cs ∧ nm ∈ allNames ∧
          cs.map Char.toUpper = nm.map Char.toUpper ∧ Occ cs rest) ∧
        (MustObj re = true → c1.obj.isSome = true) := by
  induction re with
  | epsR =>
    intro k rest prev i c res hok h
    exact ⟨rest, prev, i, c, h, sfx_refl _, Or.inl rfl, by simp [MustObj]⟩
  | chP p =>
    intro k rest prev i c res hok h
    cases rest with
    | nil => simp [runRE] at h
    | cons ch rest1 =>
      simp only [runRE] at h
      split at h
      · exact ⟨rest1, some ch, i + 1, c, h, ⟨[ch], rfl⟩, Or.inl rfl, by simp [MustObj]⟩
      · simp at h
  | litCI s =>
    intro k rest prev i c res hok h
    simp only [runRE] at h
    obtain ⟨cs, rest1, prev1, j, hk, heq, hup⟩ := litCap_sound s _ rest prev i res h
    exact ⟨rest1, prev1, j, c, hk, ⟨cs, heq⟩, Or.inl rfl, by simp [MustObj]⟩
  | seqR a b iha ihb =>
    intro k rest prev i c res hok h
    simp only [objOK, Bool.and_eq_true] at hok
    simp only [runRE] at h
    obtain ⟨r1, p1, j1, c1, h1, hs1, ho1, hm1⟩ := iha (runRE b k) rest prev i c res hok.1 h
    obtain ⟨r2, p2, j2, c2, h2, hs2, ho2, hm2⟩ := ihb k r1 p1 j1 c1 res hok.2 h1
    refine ⟨r2, p2, j2, c2, h2, sfx_trans hs2 hs1, ?_, ?_⟩
    · rcases ho2 with h2e | ⟨cs, nm, hobj, hnm, hup, hocc⟩
      · rw [h2e]
        exact ho1
      · exact Or.inr ⟨cs, nm, hobj, hnm, hup, occ_of_sfx hocc hs1⟩
    · intro hmu
      simp only [MustObj, Bool.or_eq_true] at hmu
      rcases hmu with hmu | hmu
      · have h1s := hm1 hmu
        rcases ho2 with h2e | ⟨cs, nm, hobj, _, _, _⟩
        · rw [h2e]
          exact h1s
        · simp [hobj]
      · exact hm2 hmu
  | altR a b iha ihb =>
    intro k rest prev i c res hok h
    simp only [objOK, Bool.and_eq_true] at hok
    simp only [runRE] at h
    rcases oor_eq_some h with h1 | ⟨h0, h2⟩
    · obtain ⟨r1, p1, j1, c1, hk, hs, ho, hm⟩ := iha k rest prev i c res hok.1 h1
      refine ⟨r1, p1, j1, c1, hk, hs, ho, ?_⟩
      intro hmu
      simp only [MustObj, Bool.and_eq_true] at hmu
      exact hm hmu.1
    · obtain ⟨r1, p1, j1, c1, hk, hs, ho, hm⟩ := ihb k rest prev i c res hok.2 h2
      refine ⟨r1, p1, j1, c1, hk, hs, ho, ?_⟩
      intro hmu
      simp only [MustObj, Bool.and_eq_true] at hmu
      exact hm hmu.2
  | starLz p =>
    intro k rest prev i c res hok h
    simp only [runRE] at h
    obtain ⟨rest1, prev1, j, hk, hs⟩ := starLrun_sound p _ rest prev i res h
    exact ⟨rest1, prev1, j, c, hk, hs, Or.inl rfl, by simp [MustObj]⟩
  | starGr p =>
    intro k rest prev i c res hok h
    simp only [runRE] at h
    obtain ⟨rest1, prev1, j, hk, hs⟩ := starGrun_sound p _ rest prev i res h
    exact ⟨rest1, prev1, j, c, hk, hs, Or.inl rfl, by simp [MustObj]⟩
  | plusGr p =>
    intro k rest prev i c res hok h
    cases rest with
    | nil => simp [runRE] at h
    | cons ch rest0 =>
      simp only [runRE] at h
      split at h
      · obtain ⟨rest1, prev1, j, hk, hs⟩ := starGrun_sound p _ rest0 (some ch) (i + 1) res h
        exact ⟨rest1, prev1, j, c, hk, sfx_cons hs, Or.inl rfl, by simp [MustObj]⟩
      · simp at h
  | optGr a iha =>
    intro k rest prev i c res hok h
    simp only [runRE] at h
    rcases oor_eq_some h with h1 | ⟨h0, h2⟩
    · obtain ⟨r1, p1, j1, c1, hk, hs, ho, hm⟩ := iha k rest prev i c res hok h1
      exact ⟨r1, p1, j1, c1, hk, hs, ho, by simp [MustObj]⟩
    · exact ⟨rest, prev, i, c, h2, sfx_refl _, Or.inl rfl, by simp [MustObj]⟩
  | wb =>
    intro k rest prev i c res hok h
    simp only [runRE] at h
    split at h
    · exact ⟨rest, prev, i, c, h, sfx_refl _, Or.inl rfl, by simp [MustObj]⟩
    · simp at h
  | grpStmt a iha =>
    intro k rest prev i c res hok h
    simp only [runRE] at h
    obtain ⟨r1, p1, j1, c1, hk, hs, ho, hm⟩ := iha _ rest prev i c res hok h
    refine ⟨r1, p1, j1, { c1 with stmt := some (rest.take (rest.length - r1.length)) },
      hk, hs, ?_, ?_⟩
    · simpa using ho
    · intro hmu
      simp only [MustObj] at hmu
      simpa using hm hmu
  | objLits ls =>
    intro k rest prev i c res hok h
    simp only [runRE] at h
    obtain ⟨l, cs, rest1, prev1, j, hmem, hk, heq, hup⟩ := objAlt_sound k c ls rest prev i res h
    have hnm : l ∈ allNames := by
      simp only [objOK, List.all_eq_true] at hok
      exact of_decide_eq_true (hok l hmem)
    refine ⟨rest1, prev1, j, { c with obj := some cs }, hk, ⟨cs, heq⟩, ?_, ?_⟩
    · exact Or.inr ⟨cs, l, rfl, hnm, hup, ⟨[], rest1, by rw [heq]; rfl⟩⟩
    · intro hmu
      rfl

/-! ### From matcher soundness to the scanner and the finding list -/

/-- Catalog names are already uppercase. -/
theorem allNames_upper : ∀ nm ∈ allNames, nm.map Char.toUpper = nm := by decide

/-- Every catalog name has a (non-null) remediation in `REPLACEMENTS`. -/
theorem allNames_repl : ∀ nm ∈ allNames, (lookupRepl nm).isSome = true := by decide

theorem allNames_nonempty : ∀ nm ∈ allNames, nm ≠ [] := by decide

theorem finders_objOK : ∀ re ∈ FINDERS, objOK re = true := by decide

theorem finders_MustObj : ∀ re ∈ FINDERS, MustObj re = true := by decide

/-- Every match emitted by the scanner records a captured object that is
(case-insensitively) a catalog name occurring verbatim in the text, and
its suggested remediation is the catalog lookup of that object. -/
theorem scanAux_obj (re : RE) (hok : objOK re = true) (hmust : MustObj re = true)
    (txt : List Char) :
    ∀ (fuel : Nat) (rest : List Char) (prev : Option Char) (i : Nat), Sfx rest txt →
      ∀ m ∈ scanAux re fuel rest prev i,
        ∃ cs nm, m.object = some cs ∧ nm ∈ allNames ∧
          cs.map Char.toUpper = nm.map Char.toUpper ∧ Occ cs txt ∧
          m.suggested_statement =
            (if cs = [] then none else lookupRepl (cs.map Char.toUpper)) := by
  intro fuel
  induction fuel with
  | zero =>
    intro rest prev i hs m hm
    simp [scanAux] at hm
  | succ fuel ih =>
    intro rest prev i hs m hm
    simp only [scanAux, scanBody] at hm
    split at hm
    · rename_i r rest1 prev1 j c hrun
      obtain ⟨r2, p2, j2, c2, htop, hsfx, hobj, hmu⟩ :=
        runRE_sound re topK rest prev i capsInit _ hok hrun
      simp only [topK, Option.some.injEq, Prod.mk.injEq] at htop
      obtain ⟨he1, he2, he3, he4⟩ := htop
      rw [he4] at hobj hmu
      rw [he1] at hsfx
      have hcobj : ∃ cs nm, c.obj = some cs ∧ nm ∈ allNames ∧
          cs.map Char.toUpper = nm.map Char.toUpper ∧ Occ cs rest := by
        rcases hobj with h0 | h0
        · have hisome := hmu hmust
          rw [h0] at hisome
          simp [capsInit] at hisome
        · exact h0
      obtain ⟨cs, nm, hcs, hnm, hup, hocc⟩ := hcobj
      have hmk : ∀ a b fc, m = mkMatch a b fc c →
          ∃ cs1 nm1, m.object = some cs1 ∧ nm1 ∈ allNames ∧
            cs1.map Char.toUpper = nm1.map Char.toUpper ∧ Occ cs1 txt ∧
            m.suggested_statement =
              (if cs1 = [] then none else lookupRepl (cs1.map Char.toUpper)) := by
        intro a b fc hme
        refine ⟨cs, nm, ?_, hnm, hup, occ_of_sfx hocc hs, ?_⟩
        · rw [hme]
          simpa [mkMatch] using hcs
        · rw [hme]
          simp [mkMatch, hcs]
      split at hm
      · split at hm
        · rcases List.mem_cons.mp hm with he | he
          · exact hmk _ _ _ he
          · simp at he
        · rename_i ch rtl
          rcases List.mem_cons.mp hm with he | he
          · exact hmk _ _ _ he
          · exact ih rtl (some ch) (i + 1) (sfx_tail hs) m he
      · rcases List.mem_cons.mp hm with he | he
        · exact hmk _ _ _ he
        · exact ih rest1 prev1 j (sfx_trans hsfx hs) m he
    · rename_i hrun
      split at hm
      · simp at hm
      · rename_i ch rtl
        exact ih rtl (some ch) (i + 1) (sfx_tail hs) m hm

/-- Members of `rawAll` come from some finder. -/
theorem rawAll_mem {txt : List Char} {m : RawMatch} (h : m ∈ rawAll txt) :
    ∃ re ∈ FINDERS, m ∈ finditer re txt := by
  have haux : ∀ fs : List RE,
      m ∈ fs.foldr (fun re acc => finditer re txt ++ acc) [] →
      ∃ re ∈ fs, m ∈ finditer re txt := by
    intro fs
    induction fs with
    | nil => intro hh; simp at hh
    | cons f fsr ih =>
      intro hh
      rcases List.mem_append.mp hh with hh | hh
      · exact ⟨f, List.mem_cons_self f fsr, hh⟩
      · obtain ⟨re, h1, h2⟩ := ih hh
        exact ⟨re, List.mem_cons_of_mem f h1, h2⟩
  exact haux FINDERS h

theorem rawAll_obj {txt : List Char} {m : RawMatch} (hm : m ∈ rawAll txt) :
    ∃ cs nm, m.object = some cs ∧ nm ∈ allNames ∧
      cs.map Char.toUpper = nm.map Char.toUpper ∧ Occ cs txt ∧
      m.suggested_statement =
        (if cs = [] then none else lookupRepl (cs.map Char.toUpper)) := by
  obtain ⟨re, hre, hfin⟩ := rawAll_mem hm
  exact scanAux_obj re (finders_objOK re hre) (finders_MustObj re hre) txt
    (txt.length + 1) txt none 0 (sfx_refl txt) m hfin

/-- The shared description of any finding `detect` produces: its
`targetName` is the matched text, whose uppercasing is a catalog name,
and its remediation and ambiguity flag come from the catalog lookup of
that name. -/
theorem detect_obj {txt : String} {f : Finding} (hf : f ∈ detect txt) :
    ∃ cs nm, f.target_name = some cs ∧ nm ∈ allNames ∧
      cs.map Char.toUpper = nm ∧
      f.suggested_statement = lookupRepl nm ∧
      f.ambiguous = (lookupRepl nm).isNone := by
  obtain ⟨m, hm, hfm⟩ := List.mem_map.mp hf
  have hm2 : m ∈ dedupeBySpan [] (rawAll txt.toList) := mem_sortByStart.mp hm
  have hm3 : m ∈ rawAll txt.toList := dedupeBySpan_subset hm2
  obtain ⟨cs, nm, hobj, hnm, hup, hocc, hsug⟩ := rawAll_obj hm3
  have hupnm : cs.map Char.toUpper = nm := by rw [hup, allNames_upper nm hnm]
  have hcs : cs ≠ [] := by
    intro hc
    apply allNames_nonempty nm hnm
    rw [← hupnm, hc]
    rfl
  rw [if_neg hcs, hupnm] at hsug
  refine ⟨cs, nm, ?_, hnm, hupnm, ?_, ?_⟩
  · rw [← hfm]
    simpa [toFinding] using hobj
  · rw [← hfm]
    simpa [toFinding] using hsug
  · rw [← hfm]
    simp [toFinding, hsug]

/-- If no catalog name occurs (case-insensitively) in the text, the
scanner finds nothing. -/
theorem scanAux_nil (re : RE) (hok : objOK re = true) (hmust : MustObj re = true)
    (txt : List Char)
    (habs : ∀ nm ∈ allNames, hasBlock nm (txt.map Char.toUpper) = false) :
    ∀ (fuel : Nat) (rest : List Char) (prev : Option Char) (i : Nat),
      Sfx rest txt → scanAux re fuel rest prev i = [] := by
  intro fuel
  induction fuel with
  | zero =>
    intro rest prev i hs
    rfl
  | succ fuel ih =>
    intro rest prev i hs
    simp only [scanAux, scanBody]
    split
    · rename_i r rest1 prev1 j c hrun
      exfalso
      obtain ⟨r2, p2, j2, c2, htop, hsfx, hobj, hmu⟩ :=
        runRE_sound re topK rest prev i capsInit _ hok hrun
      have hcobj : ∃ cs nm, nm ∈ allNames ∧
          cs.map Char.toUpper = nm.map Char.toUpper ∧ Occ cs rest := by
        rcases hobj with h0 | h0
        · have hisome := hmu hmust
          rw [h0] at hisome
          simp [capsInit] at hisome
        · obtain ⟨cs, nm, hcs, hnm, hup, hocc⟩ := h0
          exact ⟨cs, nm, hnm, hup, hocc⟩
      obtain ⟨cs, nm, hnm, hup, hocc⟩ := hcobj
      have hocc2 : Occ (cs.map Char.toUpper) (txt.map Char.toUpper) :=
        occ_map Char.toUpper (occ_of_sfx hocc hs)
      rw [hup, allNames_upper nm hnm] at hocc2
      have := hasBlock_of_occ hocc2
      rw [habs nm hnm] at this
      exact Bool.false_ne_true this
    · split
      · rfl
      · rename_i ch rtl hrun2
        exact ih rtl (some ch) (i + 1) (sfx_tail hs)

/-- If no catalog name occurs (case-insensitively) in the text, there
are no raw matches at all. -/
theorem rawAll_nil (txt : List Char)
    (habs : ∀ nm ∈ allNames, hasBlock nm (txt.map Char.toUpper) = false) :
    rawAll txt = [] := by
  have hfin : ∀ re ∈ FINDERS, finditer re txt = [] := fun re hre =>
    scanAux_nil re (finders_objOK re hre) (finders_MustObj re hre) txt habs
      (txt.length + 1) txt none 0 (sfx_refl txt)
  have haux : ∀ fs : List RE, (∀ re ∈ fs, finditer re txt = []) →
      fs.foldr (fun re acc => finditer re txt ++ acc) [] = [] := by
    intro fs
    induction fs with
    | nil => intro hh; rfl
    | cons f fsr ih =>
      intro hh
      simp only [List.foldr_cons]
      rw [hh f (List.mem_cons_self f fsr), ih (fun re hre => hh re (List.mem_cons_of_mem f hre))]
      rfl
  exact haux FINDERS hfin

/-- Every raw-match span survives deduplication and sorting: some
finding in the output carries exactly that span. -/
theorem span_survives {txt : String} {r : RawMatch} (hr : r ∈ rawAll txt.toList) :
    ∃ f, f ∈ find_obsolete_usage txt ∧ f.span = r.span := by
  rcases dedupeBySpan_complete r hr [] with hmem | ⟨f, hf, hsp⟩
  · simp at hmem
  · exact ⟨f, mem_sortByStart.mpr hf, hsp⟩

/-! ### Concrete inputs and records used by the claim theorems -/

/-- A single-quote character (spelled by code point). -/
def apos : String := String.mk [Char.ofNat 39]

/-- Scenario 1 input: `SELECT * FROM S066 WHERE KUNNR = '1'.` -/
def scn1 : String := "SELECT * FROM S066 WHERE KUNNR = " ++ apos ++ "1" ++ apos ++ "."

/-- Scenario 4 input: `WRITE: 'hello'.` -/
def scn4 : String := "WRITE: " ++ apos ++ "hello" ++ apos ++ "."

/-- The catalog remediation text of `S066`. -/
def replS066 : List Char :=
  "Replace S066 table with relevant fields of UKM_ITEM (per SAP Note 2706489)".toList

/-- A finding for an `S066`-family table reference with remediation
`replS066`, `targetType TABLE`, not ambiguous. -/
def tableFinding (st en : Nat) (nameChars snip : List Char) : Finding :=
  { table := none
    target_type := some "TABLE"
    target_name := some nameChars
    start_char_in_unit := st
    end_char_in_unit := en
    used_fields := []
    ambiguous := false
    suggested_statement := some replS066
    suggested_fields := none
    snippet := snip }

/-- The raw match of `TABLE_RE` on `"SELECT * FROM S066."`. -/
def rmTable : RawMatch :=
  { full := "SELECT * FROM S066.".toList
    stmt := "SELECT".toList
    object := some "S066".toList
    suggested_statement := some replS066
    span := (0, 19)
    snippet := "SELECT * FROM S066.".toList }

/-- The raw match of `GENERIC_RE` on `"SELECT * FROM S066."`. -/
def rmGeneric : RawMatch :=
  { full := "S066".toList
    stmt := "=".toList
    object := some "S066".toList
    suggested_statement := some replS066
    span := (14, 18)
    snippet := "S066".toList }

/-- A sample input record for the endpoint. -/
def unitA : Unit :=
  { pgm_name := "ZPROG"
    inc_name := "ZINC"
    type := "PROG"
    name := none
    class_implementation := none
    start_line := some 1
    end_line := some 10
    code := some "S066." }

/-! ### The claims -/

/-- C1 (corrected ingredient): on the Scenario 1 text the engine returns
two findings, not one — besides the statement-shaped `TABLE_RE` match,
the catch-all `GENERIC_RE` also matches the bare `S066` occurrence at a
different span, and span deduplication only removes identical spans.
This refutes the claim "detect returns exactly one finding". -/
theorem c1_counterexample :
    (detect scn1).length = 2 ∧ ¬ (detect scn1).length = 1 := by decide

/-- C1 (amended): on the Scenario 1 text, detect returns exactly two
findings, both TABLE findings with `targetName = "S066"`,
`ambiguous = false`, and a remediation mentioning `UKM_ITEM`: one for
the whole SELECT statement (span 0–37) and one, from the catch-all
matcher, for the bare identifier (span 14–18). -/
theorem c1_two_table_findings :
    detect scn1 =
      [tableFinding 0 37 ("S066".toList) scn1.toList,
       tableFinding 14 18 ("S066".toList) ("S066".toList)] ∧
    (detect scn1).all
      (fun f =>
        match f.suggested_statement with
        | some s => hasBlock "UKM_ITEM".toList s
        | none => false) = true := by decide

/-- C2 (confirmed): raw matches with different spans are never merged or
suppressed — every raw-match span reaches the output, so any two raw
matches with distinct (possibly partially overlapping) spans yield two
distinct findings carrying exactly those spans.  Deduplication applies
only to exact-span duplicates. -/
theorem c2_overlap_policy (txt : String) (r1 r2 : RawMatch)
    (h1 : r1 ∈ rawAll txt.toList) (h2 : r2 ∈ rawAll txt.toList)
    (hne : r1.span ≠ r2.span) :
    ∃ f1 f2, f1 ∈ find_obsolete_usage txt ∧ f2 ∈ find_obsolete_usage txt ∧
      f1.span = r1.span ∧ f2.span = r2.span ∧ f1 ≠ f2 := by
  obtain ⟨f1, hf1, hs1⟩ := span_survives h1
  obtain ⟨f2, hf2, hs2⟩ := span_survives h2
  refine ⟨f1, f2, hf1, hf2, hs1, hs2, ?_⟩
  intro he
  apply hne
  rw [← hs1, ← hs2, he]

/-- C2 witness: on `"SELECT * FROM S066."` the statement-shaped table
match (span 0–19) and the catch-all match (span 14–18) partially
overlap, and both are emitted. -/
theorem c2_overlap_policy_witness :
    (rmTable ∈ rawAll ("SELECT * FROM S066.").toList) ∧
    (rmGeneric ∈ rawAll ("SELECT * FROM S066.").toList) ∧
    rmTable.span ≠ rmGeneric.span ∧
    ∃ f1 f2, f1 ∈ find_obsolete_usage "SELECT * FROM S066." ∧
      f2 ∈ find_obsolete_usage "SELECT * FROM S066." ∧
      f1.span = rmTable.span ∧ f2.span = rmGeneric.span ∧ f1 ≠ f2 :=
  ⟨by decide, by decide, by decide,
    c2_overlap_policy "SELECT * FROM S066." rmTable rmGeneric (by decide) (by decide)
      (by decide)⟩

/-- C3 (confirmed): no span appears twice in the result list, and each
finding is the first raw match with its span in the fixed matcher
evaluation order `FINDERS` (statement-shaped matchers `TABLE_RE`,
`TXN_RE`, `PROG_RE`, `CLASS_RE` before the lenient `CLEAR_RE`,
`ASSIGN_RE`, `GENERIC_RE`). -/
theorem c3_span_dedup (txt : String) :
    ((find_obsolete_usage txt).map RawMatch.span).Nodup ∧
    ∀ f ∈ find_obsolete_usage txt,
      (rawAll txt.toList).find? (fun r => decide (r.span = f.span)) = some f := by
  constructor
  · have hperm := (sortByStart_perm (dedupeBySpan [] (rawAll txt.toList))).map RawMatch.span
    exact (List.Perm.nodup_iff hperm).mpr (dedupeBySpan_nodup [] (rawAll txt.toList))
  · intro f hf
    exact (dedupeBySpan_first f (mem_sortByStart.mp hf)).2

/-- C3 witness: concrete instance on `"SELECT * FROM S066."`. -/
theorem c3_span_dedup_witness :
    ((find_obsolete_usage "SELECT * FROM S066.").map RawMatch.span).Nodup ∧
    (rawAll ("SELECT * FROM S066.").toList).find?
      (fun r => decide (r.span = rmTable.span)) = some rmTable :=
  ⟨(c3_span_dedup "SELECT * FROM S066.").1,
   (c3_span_dedup "SELECT * FROM S066.").2 rmTable (by decide)⟩

/-- C4 (confirmed): the result list is sorted by start offset
(non-decreasing), and findings with equal start offset keep their
discovery order — for every start offset, filtering the sorted output
yields exactly the same sublist as filtering the deduplicated match
stream (the characterization of a stable sort). -/
theorem c4_sorted_stable (txt : String) :
    (find_obsolete_usage txt).Pairwise (fun a b => a.span.1 ≤ b.span.1) ∧
    ∀ s : Nat,
      (find_obsolete_usage txt).filter (fun r => decide (r.span.1 = s)) =
        (dedupeBySpan [] (rawAll txt.toList)).filter (fun r => decide (r.span.1 = s)) := by
  constructor
  · exact sortByStart_pairwise _
  · intro s
    exact sortByStart_stable s _

/-- C5 (corrected ingredient): `targetName` is not case-normalized to
the catalog's spelling — on input `"s066."` the finding's `targetName`
is the matched text `"s066"`, which is not a catalog name as spelled in
the catalog. -/
theorem c5_counterexample :
    (detect "s066.").map Finding.target_name = [some ("s066".toList)] ∧
    "s066".toList ∉ allNames := by decide

/-- C5 (amended): `targetName` is always the matched text in its
original input casing, and uppercasing it yields a name of the
Identifier Catalog — membership holds case-insensitively, not in
case-normalized form. -/
theorem c5_catalog_case_insensitive (txt : String) (f : Finding) (hf : f ∈ detect txt) :
    ∃ cs, f.target_name = some cs ∧ cs.map Char.toUpper ∈ allNames := by
  obtain ⟨cs, nm, htn, hnm, hup, h1, h2⟩ := detect_obj hf
  refine ⟨cs, htn, ?_⟩
  rw [hup]
  exact hnm

/-- C5 witness: concrete instance on `"S066."`. -/
theorem c5_catalog_case_insensitive_witness :
    (tableFinding 0 4 ("S066".toList) ("S066".toList) ∈ detect "S066.") ∧
    ∃ cs, (tableFinding 0 4 ("S066".toList) ("S066".toList)).target_name = some cs ∧
      cs.map Char.toUpper ∈ allNames :=
  ⟨by decide, c5_catalog_case_insensitive "S066." _ (by decide)⟩

/-- C6 (corrected ingredient): the claim "targetType = TABLE regardless
of the identifier's casing" fails — the membership test
`m["object"] in TABLES` is case-sensitive, so the lowercase table
reference `"s066."` produces a finding with no `targetType` even though
its identifier is (case-insensitively) a table name. -/
theorem c6_counterexample :
    (detect "s066.").map Finding.target_type = [none] ∧
    ("s066".toList.map Char.toUpper) ∈ TABLES := by decide

/-- C6 (amended): `targetType` is `TABLE` exactly when the matched text,
in its original casing, is literally one of the `TABLES` entries;
findings whose table identifier appears in any other casing carry no
`targetType`. -/
theorem c6_target_type_exact_case (txt : String) (f : Finding) (hf : f ∈ detect txt) :
    f.target_type = some "TABLE" ↔ ∃ o, f.target_name = some o ∧ o ∈ TABLES := by
  obtain ⟨m, hm, hfm⟩ := List.mem_map.mp hf
  rw [← hfm]
  cases ho : m.object with
  | none => simp [toFinding, ho]
  | some o =>
    by_cases hT : o ∈ TABLES
    · simp [toFinding, ho, hT]
    · simp [toFinding, ho, hT]

/-- C6 witness: concrete instance on `"S066."`. -/
theorem c6_target_type_exact_case_witness :
    (tableFinding 0 4 ("S066".toList) ("S066".toList) ∈ detect "S066.") ∧
    ((tableFinding 0 4 ("S066".toList) ("S066".toList)).target_type = some "TABLE" ↔
      ∃ o, (tableFinding 0 4 ("S066".toList) ("S066".toList)).target_name = some o ∧
        o ∈ TABLES) :=
  ⟨by decide, c6_target_type_exact_case "S066." _ (by decide)⟩

/-- C7 (confirmed): `ambiguous = true` iff the catalog entry looked up
for the finding's `targetName` has no remediation, and
`suggestedRemediation` is non-null iff that entry is non-null; since
every catalog entry carries a remediation, `ambiguous` is in fact always
`false`. -/
theorem c7_ambiguity (txt : String) (f : Finding) (hf : f ∈ detect txt) :
    ((f.ambiguous = true) ↔ catalogRemediation f = none) ∧
    ((f.suggested_statement ≠ none) ↔ catalogRemediation f ≠ none) ∧
    f.ambiguous = false := by
  obtain ⟨cs, nm, htn, hnm, hup, hsug, hamb⟩ := detect_obj hf
  have hcat : catalogRemediation f = lookupRepl nm := by
    simp [catalogRemediation, htn, hup]
  have hsome : (lookupRepl nm).isSome = true := allNames_repl nm hnm
  obtain ⟨v, hv⟩ := Option.isSome_iff_exists.mp hsome
  rw [hcat, hv]
  rw [hv] at hsug hamb
  refine ⟨?_, ?_, ?_⟩
  · simp [hamb]
  · simp [hsug]
  · simp [hamb]

/-- C7 witness: concrete instance on `"S066."`. -/
theorem c7_ambiguity_witness :
    (tableFinding 0 4 ("S066".toList) ("S066".toList) ∈ detect "S066.") ∧
    ((((tableFinding 0 4 ("S066".toList) ("S066".toList)).ambiguous = true) ↔
        catalogRemediation (tableFinding 0 4 ("S066".toList) ("S066".toList)) = none) ∧
      (((tableFinding 0 4 ("S066".toList) ("S066".toList)).suggested_statement ≠ none) ↔
        catalogRemediation (tableFinding 0 4 ("S066".toList) ("S066".toList)) ≠ none) ∧
      (tableFinding 0 4 ("S066".toList) ("S066".toList)).ambiguous = false) :=
  ⟨by decide, c7_ambiguity "S066." _ (by decide)⟩

/-- C8 (confirmed): the detector is a total function (it is a Lean
function, defined on every string, including the empty one), and any
text in which no catalog identifier occurs — even case-insensitively —
yields the empty finding list. -/
theorem c8_total_no_catalog (txt : String)
    (habs : ∀ nm ∈ allNames, hasBlock nm (txt.toList.map Char.toUpper) = false) :
    find_obsolete_usage txt = [] ∧ detect txt = [] := by
  have hraw := rawAll_nil txt.toList habs
  have h1 : find_obsolete_usage txt = [] := by
    rw [find_obsolete_usage, hraw]
    rfl
  refine ⟨h1, ?_⟩
  rw [detect, h1]
  rfl

/-- C8 witness: Scenario 4, `"WRITE: 'hello'."`, yields no findings. -/
theorem c8_total_no_catalog_witness :
    find_obsolete_usage scn4 = [] ∧ detect scn4 = [] :=
  c8_total_no_catalog scn4 (by decide)

/-- C9 (confirmed): the endpoint produces one output record per input
record, in order; each output record carries every field of its input
record unchanged (the `Unit` part) plus the added `mb_txn_usage` finding
list computed from `code or ""`. -/
theorem c9_passthrough (units : List Unit) (k : Nat) (u : Unit)
    (hu : units[k]? = some u) :
    (remediate_credit_objects units).length = units.length ∧
    (remediate_credit_objects units)[k]? =
      some { unit := u, mb_txn_usage := detect (u.code.getD "") } := by
  constructor
  · simp [remediate_credit_objects]
  · simp [remediate_credit_objects, hu]

/-- C9 witness: concrete instance on a one-element unit list. -/
theorem c9_passthrough_witness :
    (remediate_credit_objects [unitA]).length = [unitA].length ∧
    (remediate_credit_objects [unitA])[0]? =
      some { unit := unitA, mb_txn_usage := detect (unitA.code.getD "") } :=
  c9_passthrough [unitA] 0 unitA (by decide)

/-- C10 (corrected ingredient): the universal claim fails — in
`"S067S066"` the table name `S066` occurs immediately after the
identifier character `7`, yet the only finding is for `S067`: the
catch-all matcher reaches `S067` first and its greedy `[\-\w]*` suffix
swallows the following `S066`, and `finditer` resumes after the match. -/
theorem c10_counterexample :
    ("S067S066".toList = "S067".toList ++ "S066".toList) ∧
    isWordCh (Char.ofNat 55) = true ∧
    (detect "S067S066").map Finding.target_name = [some ("S067".toList)] := by decide

/-- C10 (amended): the catch-all matcher has no leading word-boundary
anchor, so a table name immediately preceded by identifier characters
can still be matched — on `"XS066"` detect produces exactly one finding
with `targetName = "S066"` — but not in every such text: when the
preceding characters themselves complete an earlier catalog match, the
scanner consumes the occurrence (on `"S067S066"` only an `S067` finding
is produced). -/
theorem c10_fallback_no_anchor :
    detect "XS066" = [tableFinding 1 5 ("S066".toList) ("S066".toList)] ∧
    (detect "S067S066").map Finding.target_name = [some ("S067".toList)] := by decide

end App
